import Mathlib

/-!
Verification of the codec and store contracts of `rust-ipld-core`.

The codec layer (`src/codec.rs`) is embedded shallowly: the test codec
`CodecImpl` together with the default methods of the `Codec` trait become
pure Lean functions over byte lists (bytes are `Nat` values; no arithmetic
is performed on them, only comparison with zero, so no modular reduction is
needed).  A Rust `Write` sink is an explicit byte-list accumulator, a Rust
`Read` source is an explicit remaining-byte list, and fallible operations
return `Except`.

The domain value type `crate::ipld::Ipld`, the error module, the
`References` implementation and the store traits' behaviour are not present
under `src/` (the store file declares traits only); those parts are
modelled from the specification and are marked as such in their doc
comments.
-/

/-- Content identifier.  The spec treats a CID as an opaque, hashable,
equality-comparable value, so the model only needs decidable equality. -/
structure Cid where
  code : Nat
  digest : List Nat
deriving DecidableEq, Repr

/-- Modelled from the spec: the error type of `crate::error` is not under
`src/`.  The taxonomy in the spec names an encode/decode failure (the test
codec's "not null" error) and synchronous I/O failure; `read_exact` on a
truncated source fails with an unexpected-end-of-input error. -/
inductive CodecError where
  | notNull
  | unexpectedEof
deriving DecidableEq, Repr

/-- Modelled from the spec: `crate::error::UnsupportedCodec` is not under
`src/`; per the spec it is the "unsupported codec" condition naming the
offending numeric code. -/
structure UnsupportedCodec where
  code : Nat
deriving DecidableEq, Repr

/-- Modelled from the spec: the domain value type `crate::ipld::Ipld` is
not under `src/`.  The spec treats domain values abstractly as values that
may structurally embed content identifiers (directly, or inside nested
aggregates); the minimal test codec only distinguishes the Null value from
every other value. -/
inductive Ipld where
  | null
  | bool (b : Bool)
  | integer (i : Int)
  | string (s : String)
  | bytes (b : List Nat)
  | list (xs : List Ipld)
  | link (c : Cid)

/-- The test codec `CodecImpl` of `src/codec.rs` (a fieldless unit type). -/
inductive CodecImpl where
  | mk
deriving DecidableEq, Repr

/-- `impl TryFrom<u64> for CodecImpl`: accepts every numeric code. -/
def CodecImpl.tryFrom (_ : Nat) : Except UnsupportedCodec CodecImpl :=
  .ok .mk

/-- `impl From<CodecImpl> for u64`: always returns 0. -/
def CodecImpl.intoU64 (_ : CodecImpl) : Nat :=
  0

/-- `impl Encode<CodecImpl> for Ipld`: writing to a sink `w` appends the
written bytes; only `Null` is representable and writes the single byte 0. -/
def Ipld.encode (v : Ipld) (_ : CodecImpl) (w : List Nat) : Except CodecError (List Nat) :=
  match v with
  | .null => .ok (w ++ [0])
  | _ => .error .notNull

/-- `Read::read_exact` into a 1-byte buffer: takes the next byte of the
source or fails with an unexpected-end-of-input error. -/
def readExact1 (r : List Nat) : Except CodecError (Nat × List Nat) :=
  match r with
  | [] => .error .unexpectedEof
  | b :: rest => .ok (b, rest)

/-- `impl Decode<CodecImpl> for Ipld`: reads exactly one byte; 0 decodes to
`Null`, any other byte fails with the "not null" error.  The remaining
source is returned alongside the value (the Rust reader is advanced via
`&mut`). -/
def Ipld.decode (_ : CodecImpl) (r : List Nat) : Except CodecError (Ipld × List Nat) :=
  match readExact1 r with
  | .error e => .error e
  | .ok (b, rest) => if b = 0 then .ok (.null, rest) else .error .notNull

/-- Default method `Codec::encode`: encode into a fresh buffer and return
the buffer. -/
def Codec.encode (c : CodecImpl) (v : Ipld) : Except CodecError (List Nat) :=
  match v.encode c [] with
  | .ok buf => .ok buf
  | .error e => .error e

/-- Default method `Codec::decode`: decode from the byte slice, returning
only the decoded value (the advanced reader position is discarded). -/
def Codec.decode (c : CodecImpl) (bytes : List Nat) : Except CodecError Ipld :=
  match Ipld.decode c bytes with
  | .ok (v, _) => .ok v
  | .error e => .error e

mutual

/-- The set (as a list) of CIDs structurally embedded in a value: every
identifier-typed field, collected recursively through aggregates. -/
def Ipld.embeddedCids : Ipld → List Cid
  | .null => []
  | .bool _ => []
  | .integer _ => []
  | .string _ => []
  | .bytes _ => []
  | .list xs => embeddedCidsList xs
  | .link c => [c]

/-- Recursive CID collection over a list of values. -/
def embeddedCidsList : List Ipld → List Cid
  | [] => []
  | x :: xs => x.embeddedCids ++ embeddedCidsList xs

end

/-- Modelled from the spec: no `impl References<CodecImpl> for Ipld` exists
under `src/` (only the trait declaration).  The spec requires the scanner
to be observationally identical to "decode fully, then collect all
identifier-typed fields recursively", which is what this model does. -/
def Ipld.scanReferences (c : CodecImpl) (r : List Nat) : Except CodecError (List Cid) :=
  match Ipld.decode c r with
  | .ok (v, _) => .ok v.embeddedCids
  | .error e => .error e

/-- Default method `Codec::references`: run the scanner over the byte
buffer, yielding the collected CIDs (the Rust version feeds them to an
`Extend` sink). -/
def Codec.references (c : CodecImpl) (bytes : List Nat) : Except CodecError (List Cid) :=
  Ipld.scanReferences c bytes

/-- C1: for the minimal test codec, encoding Null yields exactly [0x00],
decoding [0x00] yields Null, and decoding [0x01] fails with the "not null"
decode error. -/
theorem claim_c1_null_codec_scenario :
    Codec.encode .mk .null = .ok [0] ∧
    Codec.decode .mk [0] = .ok .null ∧
    Codec.decode .mk [1] = .error .notNull :=
  ⟨rfl, rfl, rfl⟩

/-- C10: the decoder does not reject trailing input: decoding any byte
sequence beginning with 0x00 yields Null no matter what follows. -/
theorem claim_c10_trailing_bytes_ignored (rest : List Nat) :
    Codec.decode .mk (0 :: rest) = .ok .null :=
  rfl

/-- C2: round-trip law: whenever encoding under the test codec succeeds,
decoding the produced bytes under the same codec returns the original
value. -/
theorem claim_c2_decode_encode_roundtrip (c : CodecImpl) (v : Ipld) (bytes : List Nat)
    (h : Codec.encode c v = .ok bytes) :
    Codec.decode c bytes = .ok v := by
  cases v with
  | null =>
    have hb : bytes = [0] := by
      simpa [Codec.encode, Ipld.encode] using h.symm
    subst hb
    rfl
  | bool b => simp [Codec.encode, Ipld.encode] at h
  | integer i => simp [Codec.encode, Ipld.encode] at h
  | string s => simp [Codec.encode, Ipld.encode] at h
  | bytes b => simp [Codec.encode, Ipld.encode] at h
  | list xs => simp [Codec.encode, Ipld.encode] at h
  | link c => simp [Codec.encode, Ipld.encode] at h

/-- Witness for C2: instantiated at the Null value. -/
theorem claim_c2_witness :
    Codec.decode .mk [0] = .ok .null :=
  claim_c2_decode_encode_roundtrip .mk .null [0] rfl

/-- C4: decode fails deterministically on truncated input (the empty
sequence, with an end-of-input error) and on malformed input (nonzero
first byte, with the "not null" error); in each case the result is the
error alone, never a value. -/
theorem claim_c4_decode_failure_modes :
    Codec.decode .mk [] = .error .unexpectedEof ∧
    ∀ b rest, b ≠ 0 → Codec.decode .mk (b :: rest) = .error .notNull := by
  refine ⟨rfl, ?_⟩
  intro b rest hb
  simp [Codec.decode, Ipld.decode, readExact1, hb]

/-- Witness for C4: the malformed-input branch at first byte 1. -/
theorem claim_c4_witness :
    Codec.decode .mk [1, 7] = .error .notNull :=
  claim_c4_decode_failure_modes.2 1 [7] (by decide)

/-- C5: encode succeeds exactly on the Null value (producing [0x00]) and
fails with the "not null" error on every other value. -/
theorem claim_c5_encode_succeeds_iff_null (c : CodecImpl) (v : Ipld) :
    (v = .null → Codec.encode c v = .ok [0]) ∧
    (v ≠ .null → Codec.encode c v = .error .notNull) := by
  constructor
  · intro hv; subst hv; rfl
  · intro hv
    cases v with
    | null => exact absurd rfl hv
    | bool b => rfl
    | integer i => rfl
    | string s => rfl
    | bytes b => rfl
    | list xs => rfl
    | link c => rfl

/-- Witness for C5: both branches at concrete values. -/
theorem claim_c5_witness :
    Codec.encode .mk .null = .ok [0] ∧
    Codec.encode .mk (.bool true) = .error .notNull :=
  ⟨(claim_c5_encode_succeeds_iff_null .mk .null).1 rfl,
   (claim_c5_encode_succeeds_iff_null .mk (.bool true)).2 (by intro h; exact Ipld.noConfusion h)⟩

/-- C6: whenever encoding succeeds, scanning the produced bytes for
references yields exactly the CIDs structurally embedded in the original
value: the scanner is observationally identical to full decode followed by
recursive identifier collection. -/
theorem claim_c6_references_exact (c : CodecImpl) (v : Ipld) (bytes : List Nat)
    (h : Codec.encode c v = .ok bytes) :
    Codec.references c bytes = .ok v.embeddedCids := by
  cases v with
  | null =>
    have hb : bytes = [0] := by
      simpa [Codec.encode, Ipld.encode] using h.symm
    subst hb
    rfl
  | bool b => simp [Codec.encode, Ipld.encode] at h
  | integer i => simp [Codec.encode, Ipld.encode] at h
  | string s => simp [Codec.encode, Ipld.encode] at h
  | bytes b => simp [Codec.encode, Ipld.encode] at h
  | list xs => simp [Codec.encode, Ipld.encode] at h
  | link c => simp [Codec.encode, Ipld.encode] at h

/-- Witness for C6: instantiated at the Null value, which embeds no CIDs. -/
theorem claim_c6_witness :
    Codec.references .mk [0] = .ok (Ipld.embeddedCids .null) :=
  claim_c6_references_exact .mk .null [0] rfl

/-- C7: encode, decode and reference scanning are deterministic pure
functions of their inputs: equal inputs yield equal results.  The
embedding itself carries the no-shared-mutable-state part of the claim:
each operation is a function of the codec tag and the input alone. -/
theorem claim_c7_operations_deterministic (c c' : CodecImpl)
    (v v' : Ipld) (b b' : List Nat) (hv : v = v') (hb : b = b') :
    Codec.encode c v = Codec.encode c' v' ∧
    Codec.decode c b = Codec.decode c' b' ∧
    Codec.references c b = Codec.references c' b' := by
  cases c; cases c'; subst hv; subst hb
  exact ⟨rfl, rfl, rfl⟩

/-- Witness for C7: instantiated at the Null value and the byte [0x00]. -/
theorem claim_c7_witness :
    Codec.encode .mk .null = Codec.encode .mk .null ∧
    Codec.decode .mk [0] = Codec.decode .mk [0] ∧
    Codec.references .mk [0] = Codec.references .mk [0] :=
  claim_c7_operations_deterministic .mk .mk .null .null [0] [0] rfl rfl

/-- Counterexample for C3: the round-trip law fails on CodecImpl.  Its
try_from accepts the code 5 (so 5 is a registered code for this
implementation), yet converting the resulting tag back yields 0, not 5. -/
theorem claim_c3_counterexample :
    ¬ (∀ (n : Nat) (c : CodecImpl), CodecImpl.tryFrom n = .ok c → CodecImpl.intoU64 c = n) := by
  intro h
  have h5 := h 5 .mk rfl
  simp [CodecImpl.intoU64] at h5

/-- C3 as amended: CodecImpl's try_from accepts every numeric code (no
code is ever rejected with the unsupported-codec condition) and its
conversion back to a number always yields 0, so the round-trip law holds
for a code accepted by try_from precisely when that code is 0. -/
theorem claim_c3_codecimpl_conversion (n : Nat) (c : CodecImpl)
    (h : CodecImpl.tryFrom n = .ok c) :
    CodecImpl.intoU64 c = 0 ∧ (CodecImpl.intoU64 c = n ↔ n = 0) := by
  cases c
  refine ⟨rfl, ?_⟩
  simp [CodecImpl.intoU64, eq_comm]

/-- Witness for C3's amended claim: instantiated at code 0. -/
theorem claim_c3_witness :
    CodecImpl.intoU64 .mk = 0 ∧ (CodecImpl.intoU64 .mk = 0 ↔ (0 : Nat) = 0) :=
  claim_c3_codecimpl_conversion 0 .mk rfl

/-- Visibility of a block or alias (`src/store.rs`). -/
inductive Visibility where
  | Private
  | Public
deriving DecidableEq, Repr

/-- Modelled from the spec: `AliasStore` in `src/store.rs` is a trait with
no implementation under `src/`.  Per the spec an alias store maps
byte-string names to CIDs, each name bound to exactly one CID at a time;
the model state is the list of current bindings. -/
structure AliasState where
  bindings : List (List Nat × Cid)
deriving DecidableEq, Repr

/-- Modelled from the spec: alias binds a name to a CID, overwriting any
prior binding of the same name; visibility only governs announcement and
does not affect the binding. -/
def AliasState.aliasOp (s : AliasState) (name : List Nat) (c : Cid) (_v : Visibility) :
    AliasState :=
  ⟨(name, c) :: s.bindings.filter (fun p => !(p.1 = name : Bool))⟩

/-- Modelled from the spec: unalias removes the binding for a name if
present; a no-op when absent. -/
def AliasState.unaliasOp (s : AliasState) (name : List Nat) : AliasState :=
  ⟨s.bindings.filter (fun p => !(p.1 = name : Bool))⟩

/-- Modelled from the spec: resolve is a pure lookup of the current
binding of a name, returning the bound CID or none; it takes the state and
returns no new state, so it cannot pin or otherwise mutate the store. -/
def AliasState.resolveOp (s : AliasState) (name : List Nat) : Option Cid :=
  (s.bindings.find? (fun p => (p.1 = name : Bool))).map Prod.snd

/-- C8: alias round-trip over the spec model: after alias(name, cid, v)
the name resolves to the cid; after a subsequent unalias(name) it resolves
to none; and this holds over any prior state, resolve being a pure lookup
on the state. -/
theorem claim_c8_alias_roundtrip (s : AliasState) (name : List Nat) (c : Cid)
    (v : Visibility) :
    (s.aliasOp name c v).resolveOp name = some c ∧
    ((s.aliasOp name c v).unaliasOp name).resolveOp name = none := by
  constructor
  · simp [AliasState.aliasOp, AliasState.resolveOp, List.find?]
  · simp only [AliasState.aliasOp, AliasState.unaliasOp, AliasState.resolveOp]
    rw [List.find?_eq_none.2]
    · rfl
    · intro p hp
      have hmem := List.of_mem_filter hp
      simp at hmem
      simp [hmem]

/-- Modelled from the spec: `MultiUserStore::pin` in `src/store.rs` is a
trait method with no implementation under `src/`.  Per the spec and its
design notes, path-qualified pinning is an indexed pin table of
(path, cid) entries with per-path removal; the model state is that table. -/
structure PinState where
  pins : List (String × Cid)
deriving DecidableEq, Repr

/-- Modelled from the spec: pin(cid, path) records the chain path → cid in
the pin table. -/
def PinState.pinOp (s : PinState) (c : Cid) (path : String) : PinState :=
  ⟨(path, c) :: s.pins⟩

/-- Modelled from the spec: unpinning a path breaks exactly the chain
associated with that path, leaving every other chain intact. -/
def PinState.unpinOp (s : PinState) (path : String) : PinState :=
  ⟨s.pins.filter (fun p => !(p.1 = path : Bool))⟩

/-- Modelled from the spec: whether the chain through a given path holds
the given block. -/
def PinState.pinnedVia (s : PinState) (path : String) (c : Cid) : Prop :=
  (path, c) ∈ s.pins

instance (s : PinState) (path : String) (c : Cid) : Decidable (s.pinnedVia path c) :=
  inferInstanceAs (Decidable ((path, c) ∈ s.pins))

/-- Modelled from the spec: a block is eligible for collection exactly
when no pin-path chain holds it. -/
def PinState.collectible (s : PinState) (c : Cid) : Prop :=
  ∀ p ∈ s.pins, p.2 ≠ c

instance (s : PinState) (c : Cid) : Decidable (s.collectible c) :=
  inferInstanceAs (Decidable (∀ p ∈ s.pins, p.2 ≠ c))

/-- C9: pinning independence over the spec model.  Pin a block under two
distinct paths a and b, starting from a state in which nothing pins the
block; after unpinning a, the chain through b still holds the block and it
is not collection-eligible; after also unpinning b it is
collection-eligible.  Moreover, unpinning one path never affects any other
path's hold on the same block, in any state. -/
theorem claim_c9_pinning_independence (s : PinState) (c : Cid) (a b : String)
    (hab : a ≠ b) (hfree : s.collectible c) :
    (((s.pinOp c a).pinOp c b).unpinOp a).pinnedVia b c ∧
    ¬ (((s.pinOp c a).pinOp c b).unpinOp a).collectible c ∧
    ((((s.pinOp c a).pinOp c b).unpinOp a).unpinOp b).collectible c ∧
    (∀ (t : PinState) (p q : String) (d : Cid), p ≠ q →
      ((t.unpinOp p).pinnedVia q d ↔ t.pinnedVia q d)) := by
  have hba : ¬ (b = a : Bool) = true := by simp [hab.symm]
  refine ⟨?_, ?_, ?_, ?_⟩
  · simp [PinState.pinOp, PinState.unpinOp, PinState.pinnedVia, List.mem_filter, hab.symm]
  · intro hcol
    have hb : (b, c) ∈ (((s.pinOp c a).pinOp c b).unpinOp a).pins := by
      simp [PinState.pinOp, PinState.unpinOp, List.mem_filter, hab.symm]
    exact hcol (b, c) hb rfl
  · intro p hp
    simp only [PinState.pinOp, PinState.unpinOp, List.mem_filter, List.mem_cons] at hp
    obtain ⟨⟨h1, h2⟩, h3⟩ := hp
    rcases h1 with hb | ha | hs
    · subst hb; simp at h3
    · subst ha; simp at h2
    · exact hfree p hs
  · intro t p q d hpq
    simp [PinState.unpinOp, PinState.pinnedVia, List.mem_filter, hpq.symm]

/-- Witness for C9: the scenario at paths "/a" and "/b" from the empty
state. -/
theorem claim_c9_witness :
    ((((PinState.mk []).pinOp ⟨0, []⟩ "/a").pinOp ⟨0, []⟩ "/b").unpinOp "/a").pinnedVia "/b" ⟨0, []⟩ ∧
    ¬ ((((PinState.mk []).pinOp ⟨0, []⟩ "/a").pinOp ⟨0, []⟩ "/b").unpinOp "/a").collectible ⟨0, []⟩ ∧
    (((((PinState.mk []).pinOp ⟨0, []⟩ "/a").pinOp ⟨0, []⟩ "/b").unpinOp "/a").unpinOp "/b").collectible ⟨0, []⟩ := by
  have h := claim_c9_pinning_independence (PinState.mk []) ⟨0, []⟩ "/a" "/b"
    (by decide) (by intro p hp; simp at hp)
  exact ⟨h.1, h.2.1, h.2.2.1⟩
